import Mathlib

/-!
Shallow embedding of the CA-SSN Field Data Manager
(`cassn_field_data_manager.py`): the file classification, renaming,
hashing, inventory, manifest generation and Box upload logic of the
repository, together with theorems checking the specification's
claims about them.

Pure functions of the Python module become Lean functions; the mutable
state touched by the processing loop (the destination directory, the
`file_inventory` list, the log) becomes an explicit state record that is
threaded through a fold; Python exceptions become `Except` results that
carry the state reached so far, exactly as the surviving side effects of
an aborted Python loop do.
-/

namespace CASSN

/-- Whether the first list starts with the second. -/
def listPrefixEq : List Char → List Char → Bool
  | _, [] => true
  | [], _ :: _ => false
  | c :: cs, d :: ds => c == d && listPrefixEq cs ds

/-- Embedding of Python `str.startswith`. -/
def pyStartsWith (s pre : String) : Bool :=
  listPrefixEq s.data pre.data

/-- Embedding of Python `str.lower` restricted to ASCII (every
extension compared against it in the source is ASCII): lowercase each
character. -/
def pyLower (s : String) : String :=
  String.mk (s.data.map Char.toLower)

/-- Embedding of `pathlib.PurePath.suffix` on a single path component:
the part of the name from the last dot on, unless that dot is the first
or the last character of the name (so `".bashrc"` and `"foo."` have no
suffix), in which case it is the empty string. -/
def pySuffix (name : String) : String :=
  let cs := name.data
  match List.findIdx? (fun c => c == '.') cs.reverse with
  | none => ""
  | some j =>
    let i := cs.length - 1 - j
    if 0 < i ∧ i < cs.length - 1 then String.mk (cs.drop i) else ""

/-- `IMAGE_EXTENSIONS` from the source (a Python set, modelled as a list;
only membership is ever used). -/
def IMAGE_EXTENSIONS : List String :=
  [".jpg", ".jpeg", ".png", ".tif", ".tiff", ".bmp", ".gif", ".cr2", ".nef", ".arw", ".dng"]

/-- `AUDIO_EXTENSIONS` from the source. -/
def AUDIO_EXTENSIONS : List String :=
  [".wav", ".mp3", ".flac", ".m4a", ".aac", ".wma", ".ogg"]

/-- Embedding of `classify_file`: classify by the lowercased suffix. -/
def classify_file (filename : String) : String :=
  let ext := pyLower (pySuffix filename)
  if IMAGE_EXTENSIONS.contains ext then "image"
  else if AUDIO_EXTENSIONS.contains ext then "audio"
  else "other"

example : classify_file "IMG_0001.JPG" = "image" := by decide
example : classify_file "rec.WAV" = "audio" := by decide
example : classify_file "notes.txt" = "other" := by decide
example : classify_file "README" = "other" := by decide

/-- The block decomposition performed by `compute_file_hash`'s read loop
`iter(lambda: f.read(4096), b"")`: successive 4096-byte blocks of the
file contents until the read comes back empty.  Bytes are modelled as
`Nat`. -/
def readBlocks (content : List Nat) : List (List Nat) :=
  if h : content = [] then []
  else content.take 4096 :: readBlocks (content.drop 4096)
termination_by content.length
decreasing_by
  simp only [List.length_drop]
  have hpos : 0 < content.length := List.length_pos.mpr h
  omega

/-- Embedding of `compute_file_hash`, parametrised by the digest
function `sha256hex` of the `hashlib` object: the object's abstract
state is the list of bytes fed to `update` so far (its digest depends
on nothing else), each 4096-byte block read from the file is appended
by `update`, and `hexdigest` applies the digest function to the
accumulated bytes. -/
def compute_file_hash (sha256hex : List Nat → String) (content : List Nat) : String :=
  sha256hex ((readBlocks content).foldl (fun acc block => acc ++ block) [])

theorem foldl_append_eq_flatten (blocks : List (List Nat)) (acc : List Nat) :
    blocks.foldl (fun a b => a ++ b) acc = acc ++ blocks.flatten := by
  induction blocks generalizing acc with
  | nil => simp
  | cons b bs ih => simp [ih, List.append_assoc]

theorem readBlocks_flatten (content : List Nat) : (readBlocks content).flatten = content := by
  induction content using readBlocks.induct with
  | case1 => simp [readBlocks]
  | case2 c h ih =>
    rw [readBlocks]
    simp only [h, dite_false, List.flatten_cons]
    rw [ih, List.take_append_drop]

/-! ## Box remote state and `BoxUploadThread` -/

/-- A remote Box folder as returned among a parent's items: its id, the
id of its parent, and its name. -/
structure BFolder where
  id : Nat
  parent : Nat
  name : String
deriving DecidableEq

/-- A remote Box file: the id of the folder it lives in and its name. -/
structure BFile where
  folderId : Nat
  name : String
deriving DecidableEq

/-- The remote Box state seen through the SDK calls the source makes:
the folders and files that exist, and a counter supplying fresh ids for
`create_folder`. -/
structure BoxState where
  folders : List BFolder
  files : List BFile
  nextId : Nat
deriving DecidableEq

namespace BoxUploadThread

/-- Embedding of `BoxUploadThread.find_or_create_folder`: scan the
parent folder's items for a folder with the requested name (the items
of `parent_id` are the folders whose `parent` field is `parent_id`,
plus files, which the loop skips by their type); return the first
match, otherwise create a new folder under the parent with a fresh id
and return it. -/
def find_or_create_folder (s : BoxState) (parentId : Nat) (folder_name : String) :
    BFolder × BoxState :=
  match s.folders.find? (fun g => g.parent == parentId && g.name == folder_name) with
  | some g => (g, s)
  | none =>
    let g : BFolder := ⟨s.nextId, parentId, folder_name⟩
    (g, ⟨s.folders ++ [g], s.files, s.nextId + 1⟩)

/-- The `for folder_name in relative_path.parts[:-1]` loop of
`upload_file_with_path`: walk the intermediate directory components,
finding or creating each one under the current folder, and return the
resulting deepest folder id together with the new remote state. -/
def mkdirs (s : BoxState) (root : Nat) : List String → Nat × BoxState
  | [] => (root, s)
  | n :: rest =>
    let p := find_or_create_folder s root n
    mkdirs p.2 p.1.id rest

/-- One local file handed to the upload loop: the components of its
path relative to the deployment folder (never empty: the last component
is the file name), and `uploadError` modelling whether the SDK
`upload_file` call for it raises (`some message`) or succeeds
(`none`). -/
structure UpFile where
  rel : List String
  uploadError : Option String
deriving DecidableEq

/-- Embedding of `BoxUploadThread.upload_file_with_path`: create the
intermediate folders when the relative path has more than one
component, then upload the file, named after the last component, into
the deepest folder.  Returns the new remote state and `some e` when the
upload call raised `e` (the folders created before the upload call
remain). -/
def upload_file_with_path (s : BoxState) (parent_folder_id : Nat) (f : UpFile) :
    BoxState × Option String :=
  let p :=
    if f.rel.length > 1 then mkdirs s parent_folder_id f.rel.dropLast
    else (parent_folder_id, s)
  match f.uploadError with
  | some e => (p.2, some e)
  | none =>
    (⟨p.2.folders, p.2.files ++ [⟨p.1, f.rel.getLastD ""⟩], p.2.nextId⟩, none)

/-- The result of `BoxUploadThread.run`: the final remote state, the
`progress` signals emitted (current, total, file name), and the
`finished` signal (success flag, message). -/
structure RunOut where
  state : BoxState
  events : List (Nat × Nat × String)
  finished : Bool × String
deriving DecidableEq

/-- The upload loop of `BoxUploadThread.run`: upload each file in turn,
counting `uploaded` up from its argument and emitting one `progress`
signal after each successful upload; when an upload raises, the
enclosing `try` emits `finished(False, "Upload error: " + e)` and the
loop stops with the state reached so far. -/
def uploadLoop (s : BoxState) (deployId : Nat) (total : Nat) (uploaded : Nat)
    (events : List (Nat × Nat × String)) : List UpFile → RunOut
  | [] =>
    ⟨s, events,
      (true, "Successfully uploaded " ++ toString uploaded ++ " files to Box")⟩
  | f :: rest =>
    match upload_file_with_path s deployId f with
    | (s', some e) => ⟨s', events, (false, "Upload error: " ++ e)⟩
    | (s', none) =>
      uploadLoop s' deployId total (uploaded + 1)
        (events ++ [(uploaded + 1, total, f.rel.getLastD "")]) rest

/-- Embedding of `BoxUploadThread.run` after a successful
authentication: find or create the deployment folder under the target
folder, count the regular files under the deployment folder (`files`
lists them in `rglob` order), and run the upload loop. -/
def run (s0 : BoxState) (targetFolderId : Nat) (deployName : String)
    (files : List UpFile) : RunOut :=
  let p := find_or_create_folder s0 targetFolderId deployName
  uploadLoop p.2 p.1.id files.length 0 [] files

/-- The `progress` signals the specification expects from a fully
successful run: for the file at position `u` (counting the `uploaded`
files before it), the signal `(u + 1, total, name)` where `name` is the
file's last path component. -/
def expectedProgress (total : Nat) (uploaded : Nat) : List UpFile → List (Nat × Nat × String)
  | [] => []
  | f :: rest => (uploaded + 1, total, f.rel.getLastD "") :: expectedProgress total (uploaded + 1) rest

/-- A chain of folders realising a path of names: `folderChain fs root
parts fid` holds when following `parts` from `root` through folders of
`fs` (each component a folder whose parent is the previous one) ends at
folder id `fid`. -/
def folderChain (fs : List BFolder) : Nat → List String → Nat → Prop
  | root, [], fid => fid = root
  | root, n :: rest, fid =>
    ∃ g, g ∈ fs ∧ g.parent = root ∧ g.name = n ∧ folderChain fs g.id rest fid

end BoxUploadThread

/-! ## `FieldDataWizard`: SD card processing, metadata files, reset -/

/-- Embedding of `f"{file_sequence:05d}"`: the decimal digits of the
number, zero-padded on the left to a minimum width of five. -/
def pad5 (n : Nat) : String :=
  let s := toString n
  if s.length < 5 then String.mk (List.replicate (5 - s.length) '0') ++ s else s

/-- Embedding of
`datetime.strptime(end, "%Y-%m-%d").strftime("%Y%m")` for the
`"yyyy-MM-dd"` strings the wizard's date fields produce: the year part
followed by the month part. -/
def formatYYYYMM (deployment_end : String) : String :=
  (deployment_end.take 4) ++ ((deployment_end.drop 5).take 2)

/-- The per-invocation inputs of `process_sd_card_files` drawn from
`self.metadata` and its arguments. -/
structure Params where
  org : String
  site : String
  plot_num : Nat
  plot_label : String
  dev_code : String
  device_label : String
  deployment_end : String
  exifAvailable : Bool
deriving DecidableEq

/-- One file met by the `os.walk` loop, with the environment values the
loop reads about it: the directory it sits in, its name, its size and
modification time as the copied file's `stat` reports them, the digest
`compute_file_hash` yields for its bytes, the EXIF fields
`extract_exif_data(...).get(...)` yields, and `copyError` modelling
whether `shutil.copy2` raises for it. -/
structure SrcFile where
  root : String
  name : String
  size : Nat
  mtimeIso : String
  hash : String
  exifDT : Option String
  exifMake : Option String
  exifModel : Option String
  copyError : Option String
deriving DecidableEq

/-- A record of `self.file_inventory`, field for field as built in
`process_sd_card_files`. -/
structure FileInfo where
  original_filename : String
  new_filename : String
  plot_number : Nat
  plot_label : String
  device_type : String
  device_label : String
  file_type : String
  file_size_bytes : Nat
  file_hash_sha256 : String
  source_path : String
  timestamp : String
  exif_datetime : Option String
  exif_make : Option String
  exif_model : Option String
deriving DecidableEq

/-- Observable events of the processing loop, in program order: a file
copy completing under a destination name, and an inventory record for a
destination name being appended. -/
inductive PEvent where
  | copy (name : String)
  | record (name : String)
deriving DecidableEq

/-- The mutable state `process_sd_card_files` touches: the destination
file names created so far, the `self.file_inventory` list, and the
event trace. -/
structure PState where
  destFiles : List String
  inventory : List FileInfo
  trace : List PEvent
deriving DecidableEq

/-- The state at the start of a deployment: nothing copied, empty
inventory. -/
def initPState : PState := ⟨[], [], []⟩

/-- The destination name built for sequence number `seq` and extension
`ext`, exactly as the f-string
`f"{org}_{site}_plot{plot_num}_{dev_code}_{date_str}_{seq_str}{file_ext}"`
does. -/
def newFilename (p : Params) (seq : Nat) (ext : String) : String :=
  p.org ++ "_" ++ p.site ++ "_plot" ++ toString p.plot_num ++ "_" ++ p.dev_code ++ "_" ++
    formatYYYYMM p.deployment_end ++ "_" ++ pad5 seq ++ ext

/-- The `file_info` dict appended to `self.file_inventory` for a copied
file. -/
def mkFileInfo (p : Params) (f : SrcFile) (newName : String) : FileInfo where
  original_filename := f.name
  new_filename := newName
  plot_number := p.plot_num
  plot_label := p.plot_label
  device_type := p.dev_code
  device_label := p.device_label
  file_type := classify_file f.name
  file_size_bytes := f.size
  file_hash_sha256 := f.hash
  source_path := f.root ++ "/" ++ f.name
  timestamp := f.mtimeIso
  exif_datetime := if classify_file f.name = "image" ∧ p.exifAvailable then f.exifDT else none
  exif_make := if classify_file f.name = "image" ∧ p.exifAvailable then f.exifMake else none
  exif_model := if classify_file f.name = "image" ∧ p.exifAvailable then f.exifModel else none

namespace FieldDataWizard

/-- The body of the `os.walk` loop of `process_sd_card_files`,
threading the counters `files_copied` and `file_sequence` and the
state.  A file whose name starts with a dot or an underscore, or whose
classification is "other", is passed over; otherwise the file is
copied under its new name (an exception from the copy aborts the whole
call with the state reached so far, as the Python exception leaves the
side effects in place), its info record is appended, and both counters
advance. -/
def processGo (p : Params) : List SrcFile → Nat → Nat → PState → PState × Except String Nat
  | [], files_copied, _, st => (st, Except.ok files_copied)
  | f :: rest, files_copied, file_sequence, st =>
    if pyStartsWith f.name "." || pyStartsWith f.name "_" then
      processGo p rest files_copied file_sequence st
    else if classify_file f.name == "other" then
      processGo p rest files_copied file_sequence st
    else
      let file_ext := pyLower (pySuffix f.name)
      let newName := newFilename p file_sequence file_ext
      match f.copyError with
      | some e => (st, Except.error e)
      | none =>
        let info := mkFileInfo p f newName
        let st2 : PState :=
          ⟨st.destFiles ++ [newName],
           st.inventory ++ [info],
           st.trace ++ [PEvent.copy newName, PEvent.record newName]⟩
        processGo p rest (files_copied + 1) (file_sequence + 1) st2

/-- Embedding of `FieldDataWizard.process_sd_card_files`: run the walk
loop with `files_copied = 0` and `file_sequence = 1`. -/
def process_sd_card_files (p : Params) (files : List SrcFile) (st : PState) :
    PState × Except String Nat :=
  processGo p files 0 1 st

/-- Whether the loop keeps a file: its name starts with neither a dot
nor an underscore, and it classifies as image or audio. -/
def keptFile (f : SrcFile) : Bool :=
  !(pyStartsWith f.name "." || pyStartsWith f.name "_") && !(classify_file f.name == "other")

/-- The destination names the specification's naming claim expects for
the kept files, in order, starting at sequence number `seq`:
organization, site, "plot" and the plot number, device code, the
deployment end date as YYYYMM and the five-wide zero-padded sequence
number, joined by underscores, then the lowercased original
extension. -/
def expectedNames (p : Params) : Nat → List SrcFile → List String
  | _, [] => []
  | seq, f :: rest =>
    (p.org ++ "_" ++ p.site ++ "_plot" ++ toString p.plot_num ++ "_" ++ p.dev_code ++ "_" ++
      formatYYYYMM p.deployment_end ++ "_" ++ pad5 seq ++ pyLower (pySuffix f.name))
      :: expectedNames p (seq + 1) rest

/-- "Copy then record" over a trace: scanning left to right while
remembering the copies seen, every record event must name an already
copied file. -/
def recordsHaveCopies : List PEvent → List String → Bool
  | [], _ => true
  | PEvent.copy n :: rest, copied => recordsHaveCopies rest (n :: copied)
  | PEvent.record n :: rest, copied => copied.contains n && recordsHaveCopies rest copied

/-- The copies a trace adds to an already-seen list. -/
def copiesAcc : List PEvent → List String → List String
  | [], copied => copied
  | PEvent.copy n :: rest, copied => copiesAcc rest (n :: copied)
  | PEvent.record _ :: rest, copied => copiesAcc rest copied

/-- What `copy_sd_card_data` leaves behind around its `try`/`except`:
the inventory and destination files after the call, the device row's
status text, the log lines written, and the message box shown (if
any). -/
structure CopySdOut where
  file_inventory : List FileInfo
  destFiles : List String
  status : String
  log : List String
  messageBox : Option String
deriving DecidableEq

/-- Embedding of the `try`/`except` of
`FieldDataWizard.copy_sd_card_data` around `process_sd_card_files`
(`prevStatus` is the device row's status before the call): on success
the row is marked "Complete" and the completion is logged; on an
exception the error is logged, a critical message box is shown, and
nothing else happens -- no state is rolled back and the call is not
retried. -/
def copy_sd_card_data (prevStatus : String) (p : Params) (files : List SrcFile)
    (st : PState) : CopySdOut :=
  match process_sd_card_files p files st with
  | (st', Except.ok n) =>
    ⟨st'.inventory, st'.destFiles, "Complete",
      ["✓ Completed! " ++ toString n ++ " files copied and renamed.\n"], none⟩
  | (st', Except.error e) =>
    ⟨st'.inventory, st'.destFiles, prevStatus,
      ["✗ Error: " ++ e ++ "\n"],
      some ("Error copying files: " ++ e)⟩

/-- The fields of `FieldDataWizard` that `start_new_deployment`
resets. -/
structure WizardState where
  metadata : List (String × String)
  devices : List (Nat × String × String × String)
  file_inventory : List FileInfo
  current_deployment_folder : Option String
deriving DecidableEq

/-- Embedding of `FieldDataWizard.start_new_deployment`: when the user
confirms, every data field is reset (the inventory to the empty list);
otherwise nothing changes. -/
def start_new_deployment (w : WizardState) (confirmYes : Bool) : WizardState :=
  if confirmYes then ⟨[], [], [], none⟩ else w

/-- A device entry of the manifest's `devices` list. -/
structure ManifestDevice where
  plot_number : Nat
  plot_label : String
  device_type : String
  device_label : String
deriving DecidableEq

/-- The `manifest.json` contents. -/
structure Manifest where
  deployment_info : List (String × String)
  devices : List ManifestDevice
  file_count : Nat
  generated : String
  version : String
deriving DecidableEq

/-- The `file_metadata.csv` contents: the header and one row per
inventory record. -/
structure CsvFile where
  header : List String
  rows : List (List String)
deriving DecidableEq

/-- The `csv_fields` list of `generate_metadata_files`. -/
def csv_fields : List String :=
  ["new_filename", "original_filename", "plot_number", "plot_label",
   "device_type", "device_label", "file_type", "file_size_bytes",
   "file_hash_sha256", "timestamp", "latitude", "longitude",
   "exif_datetime", "exif_make", "exif_model", "source_path"]

/-- The row `csv.DictWriter` writes for one inventory record, in
`csv_fields` order: numbers rendered in decimal, the absent `latitude`
and `longitude` keys as the empty rest-value, `None` EXIF values as
empty strings. -/
def csvRow (i : FileInfo) : List String :=
  [i.new_filename, i.original_filename, toString i.plot_number, i.plot_label,
   i.device_type, i.device_label, i.file_type, toString i.file_size_bytes,
   i.file_hash_sha256, i.timestamp, "", "",
   i.exif_datetime.getD "", i.exif_make.getD "", i.exif_model.getD "",
   i.source_path]

/-- The application version string. -/
def VERSION : String := "2.1"

/-- Embedding of `FieldDataWizard.generate_metadata_files`: write the
CSV with a header and one row per inventory record, and the manifest
with the deployment info, one device entry per selected device, the
inventory length as `file_count`, the generation timestamp (an
environment input) and the version. -/
def generate_metadata_files (metadata : List (String × String))
    (devices : List (Nat × String × String × String))
    (inventory : List FileInfo) (now : String) : CsvFile × Manifest :=
  (⟨csv_fields, inventory.map csvRow⟩,
   ⟨metadata,
    devices.map (fun d => ⟨d.1, d.2.1, d.2.2.1, d.2.2.2⟩),
    inventory.length, now, VERSION⟩)

/-- Embedding of `FieldDataWizard.on_upload_finished`: re-enable the
buttons and show an information box on success, a warning box on
failure. -/
def on_upload_finished (success : Bool) (message : String) : String × String :=
  if success then ("information", message) else ("warning", message)

end FieldDataWizard

/-! ## Helper lemmas about the Box model -/

namespace BoxUploadThread

theorem find_or_create_parent_name (s : BoxState) (pid : Nat) (n : String) :
    (find_or_create_folder s pid n).1.parent = pid ∧
    (find_or_create_folder s pid n).1.name = n ∧
    (find_or_create_folder s pid n).1 ∈ (find_or_create_folder s pid n).2.folders ∧
    (∃ zs, (find_or_create_folder s pid n).2.folders = s.folders ++ zs) ∧
    (find_or_create_folder s pid n).2.files = s.files := by
  unfold find_or_create_folder
  cases hf : s.folders.find? (fun g => g.parent == pid && g.name == n) with
  | none =>
    refine ⟨rfl, rfl, ?_, ⟨[⟨s.nextId, pid, n⟩], rfl⟩, rfl⟩
    simp
  | some g =>
    have hp := List.find?_some hf
    have hm := List.mem_of_find?_eq_some hf
    simp only [Bool.and_eq_true, beq_iff_eq] at hp
    exact ⟨hp.1, hp.2, hm, ⟨[], by simp⟩, rfl⟩

theorem folderChain_mono (fs zs : List BFolder) :
    ∀ root parts fid, folderChain fs root parts fid → folderChain (fs ++ zs) root parts fid := by
  intro root parts
  induction parts generalizing root with
  | nil => intro fid h; exact h
  | cons n rest ih =>
    intro fid h
    obtain ⟨g, hg, hp, hn, hc⟩ := h
    exact ⟨g, List.mem_append_left _ hg, hp, hn, ih g.id fid hc⟩

theorem mkdirs_spec (parts : List String) :
    ∀ (s : BoxState) (root : Nat),
    (∃ zs, (mkdirs s root parts).2.folders = s.folders ++ zs) ∧
    (mkdirs s root parts).2.files = s.files ∧
    folderChain (mkdirs s root parts).2.folders root parts (mkdirs s root parts).1 := by
  induction parts with
  | nil =>
    intro s root
    exact ⟨⟨[], by simp [mkdirs]⟩, rfl, by simp [mkdirs, folderChain]⟩
  | cons n rest ih =>
    intro s root
    obtain ⟨h1, h2, h3, ⟨zs1, hzs1⟩, h5⟩ :=
      find_or_create_parent_name s root n
    obtain ⟨⟨zs2, hzs2⟩, hfiles, hchain⟩ :=
      ih (find_or_create_folder s root n).2 (find_or_create_folder s root n).1.id
    have hstep : mkdirs s root (n :: rest)
        = mkdirs (find_or_create_folder s root n).2 (find_or_create_folder s root n).1.id rest := rfl
    rw [hstep]
    refine ⟨⟨zs1 ++ zs2, by rw [hzs2, hzs1, List.append_assoc]⟩, by rw [hfiles, h5], ?_⟩
    refine ⟨(find_or_create_folder s root n).1, ?_, h1, h2, hchain⟩
    rw [hzs2]
    exact List.mem_append_left _ h3

theorem upload_ok (s : BoxState) (pid : Nat) (f : UpFile) (h : f.uploadError = none) :
    (upload_file_with_path s pid f).2 = none ∧
    ∃ fid, (upload_file_with_path s pid f).1.files = s.files ++ [⟨fid, f.rel.getLastD ""⟩] ∧
      ∃ zs, (upload_file_with_path s pid f).1.folders = s.folders ++ zs := by
  unfold upload_file_with_path
  rw [h]
  by_cases hl : f.rel.length > 1
  · rw [if_pos hl]
    obtain ⟨⟨zs, hzs⟩, hfiles, _⟩ := mkdirs_spec f.rel.dropLast s pid
    exact ⟨rfl, (mkdirs s pid f.rel.dropLast).1, by simp only [hfiles], zs, by simp only [hzs]⟩
  · rw [if_neg hl]
    exact ⟨rfl, pid, rfl, ⟨[], by simp⟩⟩

theorem upload_err (s : BoxState) (pid : Nat) (f : UpFile) (e : String)
    (h : f.uploadError = some e) :
    (upload_file_with_path s pid f).2 = some e ∧
    (upload_file_with_path s pid f).1.files = s.files ∧
    ∃ zs, (upload_file_with_path s pid f).1.folders = s.folders ++ zs := by
  unfold upload_file_with_path
  rw [h]
  by_cases hl : f.rel.length > 1
  · rw [if_pos hl]
    obtain ⟨⟨zs, hzs⟩, hfiles, _⟩ := mkdirs_spec f.rel.dropLast s pid
    exact ⟨rfl, by simp only [hfiles], zs, by simp only [hzs]⟩
  · rw [if_neg hl]
    exact ⟨rfl, rfl, ⟨[], by simp⟩⟩

theorem uploadLoop_success (files : List UpFile) :
    ∀ (s : BoxState) deployId total uploaded events,
    (∀ f ∈ files, f.uploadError = none) →
    (uploadLoop s deployId total uploaded events files).events
        = events ++ expectedProgress total uploaded files ∧
    (uploadLoop s deployId total uploaded events files).finished
        = (true, "Successfully uploaded " ++ toString (uploaded + files.length) ++ " files to Box") ∧
    (uploadLoop s deployId total uploaded events files).state.files.length
        = s.files.length + files.length ∧
    (∃ zs, (uploadLoop s deployId total uploaded events files).state.folders
        = s.folders ++ zs) := by
  induction files with
  | nil =>
    intro s deployId total uploaded events _
    exact ⟨by simp [uploadLoop, expectedProgress], by simp [uploadLoop], by simp [uploadLoop],
      ⟨[], by simp [uploadLoop]⟩⟩
  | cons f rest ih =>
    intro s deployId total uploaded events hall
    have hf : f.uploadError = none := hall f (List.mem_cons_self f rest)
    obtain ⟨h2, fid, hfiles, zs0, hfold⟩ := upload_ok s deployId f hf
    cases hu : upload_file_with_path s deployId f with
    | mk s' r =>
      rw [hu] at h2 hfiles hfold
      simp only at h2 hfiles hfold
      subst h2
      have hred : uploadLoop s deployId total uploaded events (f :: rest)
          = uploadLoop s' deployId total (uploaded + 1)
              (events ++ [(uploaded + 1, total, f.rel.getLastD "")]) rest := by
        simp [uploadLoop, hu]
      obtain ⟨ihev, ihfin, ihlen, zs1, ihfold⟩ :=
        ih s' deployId total (uploaded + 1)
          (events ++ [(uploaded + 1, total, f.rel.getLastD "")])
          (fun g hg => hall g (List.mem_cons_of_mem f hg))
      refine ⟨?_, ?_, ?_, ?_⟩
      · rw [hred, ihev, List.append_assoc]
        simp [expectedProgress]
      · rw [hred, ihfin]
        have : uploaded + 1 + rest.length = uploaded + (rest.length + 1) := by omega
        rw [this]
        simp
      · rw [hred, ihlen, hfiles]
        simp
        omega
      · exact ⟨zs0 ++ zs1, by rw [hred, ihfold, hfold, List.append_assoc]⟩

theorem uploadLoop_fail (pre : List UpFile) :
    ∀ (s : BoxState) deployId total uploaded events (f : UpFile) post e,
    f.uploadError = some e → (∀ g ∈ pre, g.uploadError = none) →
    (uploadLoop s deployId total uploaded events (pre ++ f :: post)).finished
        = (false, "Upload error: " ++ e) ∧
    (uploadLoop s deployId total uploaded events (pre ++ f :: post)).state.files.length
        = s.files.length + pre.length ∧
    (∃ zs, (uploadLoop s deployId total uploaded events (pre ++ f :: post)).state.files
        = s.files ++ zs) ∧
    (∃ zs, (uploadLoop s deployId total uploaded events (pre ++ f :: post)).state.folders
        = s.folders ++ zs) := by
  induction pre with
  | nil =>
    intro s deployId total uploaded events f post e hf _
    obtain ⟨h2, hfiles, zs0, hfold⟩ := upload_err s deployId f e hf
    cases hu : upload_file_with_path s deployId f with
    | mk s' r =>
      rw [hu] at h2 hfiles hfold
      simp only at h2 hfiles hfold
      subst h2
      have hred : uploadLoop s deployId total uploaded events ([] ++ f :: post)
          = ⟨s', events, (false, "Upload error: " ++ e)⟩ := by
        simp [uploadLoop, hu]
      rw [hred]
      exact ⟨rfl, by simp [hfiles], ⟨[], by rw [hfiles, List.append_nil]⟩, ⟨zs0, hfold⟩⟩
  | cons g pre' ih =>
    intro s deployId total uploaded events f post e hf hall
    have hg : g.uploadError = none := hall g (List.mem_cons_self g pre')
    obtain ⟨h2, fid, hfiles, zs0, hfold⟩ := upload_ok s deployId g hg
    cases hu : upload_file_with_path s deployId g with
    | mk s' r =>
      rw [hu] at h2 hfiles hfold
      simp only at h2 hfiles hfold
      subst h2
      have hred : uploadLoop s deployId total uploaded events ((g :: pre') ++ f :: post)
          = uploadLoop s' deployId total (uploaded + 1)
              (events ++ [(uploaded + 1, total, g.rel.getLastD "")]) (pre' ++ f :: post) := by
        simp [uploadLoop, hu]
      obtain ⟨ihfin, ihlen, ⟨zs1, ihfiles⟩, zs2, ihfold⟩ :=
        ih s' deployId total (uploaded + 1)
          (events ++ [(uploaded + 1, total, g.rel.getLastD "")]) f post e hf
          (fun x hx => hall x (List.mem_cons_of_mem g hx))
      refine ⟨by rw [hred, ihfin], ?_, ?_, ?_⟩
      · rw [hred, ihlen, hfiles]
        simp
        omega
      · exact ⟨[⟨fid, g.rel.getLastD ""⟩] ++ zs1,
          by rw [hred, ihfiles, hfiles, List.append_assoc]⟩
      · exact ⟨zs0 ++ zs2, by rw [hred, ihfold, hfold, List.append_assoc]⟩

theorem expectedProgress_length (total : Nat) :
    ∀ uploaded (files : List UpFile),
    (expectedProgress total uploaded files).length = files.length := by
  intro uploaded files
  induction files generalizing uploaded with
  | nil => rfl
  | cons f rest ih => simp [expectedProgress, ih]

end BoxUploadThread

/-! ## Helper lemmas about the processing loop -/

namespace FieldDataWizard

/-- The destination names the trace says were copied. -/
def copyNames (t : List PEvent) : List String :=
  t.filterMap (fun e => match e with | PEvent.copy n => some n | PEvent.record _ => none)

/-- The destination names the trace says were recorded. -/
def recordNames (t : List PEvent) : List String :=
  t.filterMap (fun e => match e with | PEvent.record n => some n | PEvent.copy _ => none)

theorem processGo_frame (p : Params) (files : List SrcFile) :
    ∀ c s (st : PState),
    (processGo p files c s st).1.destFiles
        = st.destFiles ++ (processGo p files c s initPState).1.destFiles ∧
    (processGo p files c s st).1.inventory
        = st.inventory ++ (processGo p files c s initPState).1.inventory ∧
    (processGo p files c s st).1.trace
        = st.trace ++ (processGo p files c s initPState).1.trace ∧
    (processGo p files c s st).2 = (processGo p files c s initPState).2 := by
  induction files with
  | nil =>
    intro c s st
    exact ⟨by simp [processGo, initPState], by simp [processGo, initPState],
      by simp [processGo, initPState], rfl⟩
  | cons f rest ih =>
    intro c s st
    by_cases h1 : (pyStartsWith f.name "." || pyStartsWith f.name "_") = true
    · simpa only [processGo, h1, if_true] using ih c s st
    · by_cases h2 : (classify_file f.name == "other") = true
      · simpa only [processGo, h1, if_false, h2, if_true, Bool.false_eq_true] using ih c s st
      · cases hce : f.copyError with
        | some e =>
          simp only [processGo, h1, h2, Bool.false_eq_true, if_false, hce]
          refine ⟨?_, ?_, ?_, ?_⟩ <;> simp [initPState]
        | none =>
          have hred : ∀ st' : PState,
              processGo p (f :: rest) c s st'
                = processGo p rest (c + 1) (s + 1)
                    ⟨st'.destFiles ++ [newFilename p s (pyLower (pySuffix f.name))],
                     st'.inventory ++ [mkFileInfo p f (newFilename p s (pyLower (pySuffix f.name)))],
                     st'.trace ++ [PEvent.copy (newFilename p s (pyLower (pySuffix f.name))),
                       PEvent.record (newFilename p s (pyLower (pySuffix f.name)))]⟩ := by
            intro st'
            simp only [processGo, h1, h2, Bool.false_eq_true, if_false, hce]
          rw [hred st, hred initPState]
          obtain ⟨ihd1, ihi1, iht1, ihr1⟩ := ih (c + 1) (s + 1)
            ⟨st.destFiles ++ [newFilename p s (pyLower (pySuffix f.name))],
             st.inventory ++ [mkFileInfo p f (newFilename p s (pyLower (pySuffix f.name)))],
             st.trace ++ [PEvent.copy (newFilename p s (pyLower (pySuffix f.name))),
               PEvent.record (newFilename p s (pyLower (pySuffix f.name)))]⟩
          obtain ⟨ihd2, ihi2, iht2, ihr2⟩ := ih (c + 1) (s + 1)
            ⟨initPState.destFiles ++ [newFilename p s (pyLower (pySuffix f.name))],
             initPState.inventory ++ [mkFileInfo p f (newFilename p s (pyLower (pySuffix f.name)))],
             initPState.trace ++ [PEvent.copy (newFilename p s (pyLower (pySuffix f.name))),
               PEvent.record (newFilename p s (pyLower (pySuffix f.name)))]⟩
          refine ⟨?_, ?_, ?_, ?_⟩
          · rw [ihd1, ihd2]
            simp [initPState, List.append_assoc]
          · rw [ihi1, ihi2]
            simp [initPState, List.append_assoc]
          · rw [iht1, iht2]
            simp [initPState, List.append_assoc]
          · rw [ihr1, ihr2]

theorem processGo_filter (p : Params) (files : List SrcFile) :
    ∀ c s (st : PState),
    processGo p files c s st = processGo p (files.filter keptFile) c s st := by
  induction files with
  | nil => intro c s st; rfl
  | cons f rest ih =>
    intro c s st
    by_cases h1 : (pyStartsWith f.name "." || pyStartsWith f.name "_") = true
    · have hk : keptFile f = false := by simp [keptFile, h1]
      rw [List.filter_cons_of_neg (by simp [hk])]
      simpa only [processGo, h1, if_true] using ih c s st
    · by_cases h2 : (classify_file f.name == "other") = true
      · have hk : keptFile f = false := by
          simp only [keptFile, h1, h2]
          simp
        rw [List.filter_cons_of_neg (by simp [hk])]
        simpa only [processGo, h1, h2, Bool.false_eq_true, if_false, if_true] using ih c s st
      · have hk : keptFile f = true := by
          simp only [keptFile]
          simp only [Bool.not_eq_true'] at h1 h2
          simp [h1, h2]
        rw [List.filter_cons_of_pos hk]
        cases hce : f.copyError with
        | some e => simp only [processGo, h1, h2, Bool.false_eq_true, if_false, hce]
        | none =>
          simp only [processGo, h1, h2, Bool.false_eq_true, if_false, hce]
          exact ih (c + 1) (s + 1) _

theorem processGo_names (p : Params) (files : List SrcFile) :
    ∀ c s (st : PState), (∀ f ∈ files, f.copyError = none) →
    (processGo p files c s st).1.inventory.map FileInfo.new_filename
      = st.inventory.map FileInfo.new_filename ++ expectedNames p s (files.filter keptFile) := by
  induction files with
  | nil =>
    intro c s st _
    simp [processGo, expectedNames]
  | cons f rest ih =>
    intro c s st hall
    have hrest : ∀ g ∈ rest, g.copyError = none :=
      fun g hg => hall g (List.mem_cons_of_mem f hg)
    by_cases h1 : (pyStartsWith f.name "." || pyStartsWith f.name "_") = true
    · have hk : keptFile f = false := by simp [keptFile, h1]
      rw [List.filter_cons_of_neg (by simp [hk])]
      simpa only [processGo, h1, if_true] using ih c s st hrest
    · by_cases h2 : (classify_file f.name == "other") = true
      · have hk : keptFile f = false := by
          simp only [keptFile, h1, h2]
          simp
        rw [List.filter_cons_of_neg (by simp [hk])]
        simpa only [processGo, h1, h2, Bool.false_eq_true, if_false, if_true] using ih c s st hrest
      · have hk : keptFile f = true := by
          simp only [keptFile]
          simp only [Bool.not_eq_true'] at h1 h2
          simp [h1, h2]
        rw [List.filter_cons_of_pos hk]
        have hce : f.copyError = none := hall f (List.mem_cons_self f rest)
        simp only [processGo, h1, h2, Bool.false_eq_true, if_false, hce]
        rw [ih (c + 1) (s + 1) _ hrest]
        simp [expectedNames, newFilename, mkFileInfo, List.append_assoc]

theorem recordsHaveCopies_append (t1 : List PEvent) :
    ∀ t2 copied,
    recordsHaveCopies (t1 ++ t2) copied
      = (recordsHaveCopies t1 copied && recordsHaveCopies t2 (copiesAcc t1 copied)) := by
  induction t1 with
  | nil => intro t2 copied; simp [recordsHaveCopies, copiesAcc]
  | cons e rest ih =>
    intro t2 copied
    cases e with
    | copy n => simp [recordsHaveCopies, copiesAcc, ih]
    | record n => simp [recordsHaveCopies, copiesAcc, ih, Bool.and_assoc]

theorem processGo_trace_ok (p : Params) (files : List SrcFile) :
    ∀ c s (st : PState) copied,
    recordsHaveCopies st.trace copied = true →
    recordsHaveCopies (processGo p files c s st).1.trace copied = true := by
  induction files with
  | nil => intro c s st copied h; exact h
  | cons f rest ih =>
    intro c s st copied h
    by_cases h1 : (pyStartsWith f.name "." || pyStartsWith f.name "_") = true
    · simpa only [processGo, h1, if_true] using ih c s st copied h
    · by_cases h2 : (classify_file f.name == "other") = true
      · simpa only [processGo, h1, h2, Bool.false_eq_true, if_false, if_true]
          using ih c s st copied h
      · cases hce : f.copyError with
        | some e => simpa only [processGo, h1, h2, Bool.false_eq_true, if_false, hce] using h
        | none =>
          simp only [processGo, h1, h2, Bool.false_eq_true, if_false, hce]
          apply ih
          rw [recordsHaveCopies_append, h]
          simp [recordsHaveCopies]

theorem processGo_recordNames (p : Params) (files : List SrcFile) :
    ∀ c s,
    recordNames (processGo p files c s initPState).1.trace
      = (processGo p files c s initPState).1.inventory.map FileInfo.new_filename ∧
    copyNames (processGo p files c s initPState).1.trace
      = (processGo p files c s initPState).1.destFiles := by
  induction files with
  | nil => intro c s; simp [processGo, initPState, recordNames, copyNames]
  | cons f rest ih =>
    intro c s
    by_cases h1 : (pyStartsWith f.name "." || pyStartsWith f.name "_") = true
    · simpa only [processGo, h1, if_true] using ih c s
    · by_cases h2 : (classify_file f.name == "other") = true
      · simpa only [processGo, h1, h2, Bool.false_eq_true, if_false, if_true] using ih c s
      · cases hce : f.copyError with
        | some e =>
          simp only [processGo, h1, h2, Bool.false_eq_true, if_false, hce]
          simp [initPState, recordNames, copyNames]
        | none =>
          simp only [processGo, h1, h2, Bool.false_eq_true, if_false, hce]
          obtain ⟨hd, hi, ht, _⟩ := processGo_frame p rest (c + 1) (s + 1)
            ⟨initPState.destFiles ++ [newFilename p s (pyLower (pySuffix f.name))],
             initPState.inventory ++ [mkFileInfo p f (newFilename p s (pyLower (pySuffix f.name)))],
             initPState.trace ++ [PEvent.copy (newFilename p s (pyLower (pySuffix f.name))),
               PEvent.record (newFilename p s (pyLower (pySuffix f.name)))]⟩
          obtain ⟨ihr, ihc⟩ := ih (c + 1) (s + 1)
          constructor
          · rw [hi, ht]
            simp only [recordNames, List.filterMap_append] at ihr ⊢
            simp [initPState, mkFileInfo]
            simpa [initPState] using ihr
          · rw [hd, ht]
            simp only [copyNames, List.filterMap_append] at ihc ⊢
            simp [initPState]
            simpa [initPState] using ihc

theorem processGo_count (p : Params) (files : List SrcFile) :
    ∀ c s n, (processGo p files c s initPState).2 = Except.ok n →
    n = c + (processGo p files c s initPState).1.inventory.length := by
  induction files with
  | nil =>
    intro c s n h
    simp [processGo, initPState] at h ⊢
    omega
  | cons f rest ih =>
    intro c s n h
    by_cases h1 : (pyStartsWith f.name "." || pyStartsWith f.name "_") = true
    · rw [show (processGo p (f :: rest) c s initPState)
          = processGo p rest c s initPState by simp [processGo, h1]] at h ⊢
      exact ih c s n h
    · by_cases h2 : (classify_file f.name == "other") = true
      · rw [show (processGo p (f :: rest) c s initPState)
            = processGo p rest c s initPState by
              simp only [processGo, h1, h2, Bool.false_eq_true, if_false, if_true]] at h ⊢
        exact ih c s n h
      · cases hce : f.copyError with
        | some e =>
          rw [show (processGo p (f :: rest) c s initPState)
              = (initPState, Except.error e) by
                simp only [processGo, h1, h2, Bool.false_eq_true, if_false, hce]] at h
          exact absurd h (by simp)
        | none =>
          have hred : processGo p (f :: rest) c s initPState
              = processGo p rest (c + 1) (s + 1)
                  ⟨initPState.destFiles ++ [newFilename p s (pyLower (pySuffix f.name))],
                   initPState.inventory ++ [mkFileInfo p f (newFilename p s (pyLower (pySuffix f.name)))],
                   initPState.trace ++ [PEvent.copy (newFilename p s (pyLower (pySuffix f.name))),
                     PEvent.record (newFilename p s (pyLower (pySuffix f.name)))]⟩ := by
            simp only [processGo, h1, h2, Bool.false_eq_true, if_false, hce]
          rw [hred] at h ⊢
          obtain ⟨hd, hi, ht, hr⟩ := processGo_frame p rest (c + 1) (s + 1)
            ⟨initPState.destFiles ++ [newFilename p s (pyLower (pySuffix f.name))],
             initPState.inventory ++ [mkFileInfo p f (newFilename p s (pyLower (pySuffix f.name)))],
             initPState.trace ++ [PEvent.copy (newFilename p s (pyLower (pySuffix f.name))),
               PEvent.record (newFilename p s (pyLower (pySuffix f.name)))]⟩
          rw [hr] at h
          rw [hi]
          have := ih (c + 1) (s + 1) n h
          simp [initPState] at this ⊢
          omega

end FieldDataWizard

/-! ## The claims -/

open BoxUploadThread FieldDataWizard

/-- Claim C1: for every file uploaded by `upload_file_with_path` with a
relative path of depth greater than one, each intermediate directory
component of that relative path (all parts except the last) is found or
created in order under the deployment folder -- afterwards a chain of
folders realising exactly those components exists from the deployment
folder -- and the file is uploaded into the deepest such folder, so the
remote folder hierarchy mirrors the local directory tree. -/
theorem C1_upload_file_with_path_mirrors (s : BoxState) (pid : Nat) (f : UpFile)
    (herr : f.uploadError = none) (hdepth : f.rel.length > 1) :
    (upload_file_with_path s pid f).2 = none ∧
    ∃ fid, folderChain (upload_file_with_path s pid f).1.folders pid f.rel.dropLast fid ∧
      (upload_file_with_path s pid f).1.files = s.files ++ [⟨fid, f.rel.getLastD ""⟩] := by
  unfold upload_file_with_path
  rw [herr, if_pos hdepth]
  obtain ⟨⟨zs, hzs⟩, hfiles, hchain⟩ := mkdirs_spec f.rel.dropLast s pid
  exact ⟨rfl, (mkdirs s pid f.rel.dropLast).1, by simpa using hchain, by simp [hfiles]⟩

/-- Witness for C1: a file two directories deep in the deployment
folder. -/
theorem C1_witness :
    (upload_file_with_path ⟨[], [], 0⟩ 7
        ⟨["raw_data", "p1_ML", "UC_x.jpg"], none⟩).2 = none ∧
    ∃ fid, folderChain (upload_file_with_path ⟨[], [], 0⟩ 7
        ⟨["raw_data", "p1_ML", "UC_x.jpg"], none⟩).1.folders 7
        ((["raw_data", "p1_ML", "UC_x.jpg"] : List String).dropLast) fid ∧
      (upload_file_with_path ⟨[], [], 0⟩ 7
        ⟨["raw_data", "p1_ML", "UC_x.jpg"], none⟩).1.files
        = (⟨[], [], 0⟩ : BoxState).files
            ++ [⟨fid, (["raw_data", "p1_ML", "UC_x.jpg"] : List String).getLastD ""⟩] :=
  C1_upload_file_with_path_mirrors ⟨[], [], 0⟩ 7
    ⟨["raw_data", "p1_ML", "UC_x.jpg"], none⟩ rfl (by decide)

/-- Claim C5: when `run` completes without an exception it has uploaded
every regular file under the deployment folder exactly once, emitting
exactly one progress signal `(current, total, filename)` per uploaded
file with `current` running from 1 to `total`, where `total` is the
count of regular files under the deployment folder, and the final
`finished(True, message)` reports an upload count equal to `total`. -/
theorem C5_run_uploads_all (s0 : BoxState) (tid : Nat) (dn : String) (files : List UpFile)
    (h : ∀ f ∈ files, f.uploadError = none) :
    (run s0 tid dn files).events = expectedProgress files.length 0 files ∧
    (run s0 tid dn files).events.length = files.length ∧
    (run s0 tid dn files).finished
      = (true, "Successfully uploaded " ++ toString files.length ++ " files to Box") ∧
    (run s0 tid dn files).state.files.length = s0.files.length + files.length := by
  obtain ⟨_, _, _, _, hfile0⟩ := find_or_create_parent_name s0 tid dn
  have hrun : run s0 tid dn files
      = uploadLoop (find_or_create_folder s0 tid dn).2
          (find_or_create_folder s0 tid dn).1.id files.length 0 [] files := rfl
  obtain ⟨hev, hfin, hlen, _⟩ :=
    uploadLoop_success files (find_or_create_folder s0 tid dn).2
      (find_or_create_folder s0 tid dn).1.id files.length 0 [] h
  rw [hrun]
  refine ⟨by rw [hev]; simp, ?_, by rw [hfin]; simp, by rw [hlen, hfile0]⟩
  rw [hev]
  simp [expectedProgress_length]

/-- Witness for C5: two files, one at the top of the deployment folder
and one in a subdirectory. -/
theorem C5_witness :
    (run ⟨[], [], 0⟩ 3 "UC_Bodega_20250314"
        [⟨["manifest.json"], none⟩, ⟨["raw_data", "a.jpg"], none⟩]).events
      = expectedProgress 2 0 [⟨["manifest.json"], none⟩, ⟨["raw_data", "a.jpg"], none⟩] ∧
    (run ⟨[], [], 0⟩ 3 "UC_Bodega_20250314"
        [⟨["manifest.json"], none⟩, ⟨["raw_data", "a.jpg"], none⟩]).events.length = 2 ∧
    (run ⟨[], [], 0⟩ 3 "UC_Bodega_20250314"
        [⟨["manifest.json"], none⟩, ⟨["raw_data", "a.jpg"], none⟩]).finished
      = (true, "Successfully uploaded " ++ toString 2 ++ " files to Box") ∧
    (run ⟨[], [], 0⟩ 3 "UC_Bodega_20250314"
        [⟨["manifest.json"], none⟩, ⟨["raw_data", "a.jpg"], none⟩]).state.files.length
      = (⟨[], [], 0⟩ : BoxState).files.length + 2 :=
  C5_run_uploads_all ⟨[], [], 0⟩ 3 "UC_Bodega_20250314"
    [⟨["manifest.json"], none⟩, ⟨["raw_data", "a.jpg"], none⟩]
    (by intro f hf; simp at hf; rcases hf with h | h <;> simp [h])

/-- Claim C6: `find_or_create_folder` is idempotent with respect to the
remote folder set: if a folder with the given name already exists among
the parent folder's items it is returned and no create call happens (the
state is unchanged), and calling it twice with the same parent and name
yields the same folder and the same state, creating at most one new
folder in total. -/
theorem C6_find_or_create_folder_idempotent (s : BoxState) (pid : Nat) (n : String) :
    (∀ g ∈ s.folders, g.parent = pid → g.name = n →
      (find_or_create_folder s pid n).2 = s) ∧
    (find_or_create_folder (find_or_create_folder s pid n).2 pid n).1
      = (find_or_create_folder s pid n).1 ∧
    (find_or_create_folder (find_or_create_folder s pid n).2 pid n).2
      = (find_or_create_folder s pid n).2 ∧
    (find_or_create_folder s pid n).2.folders.length ≤ s.folders.length + 1 := by
  cases hf : s.folders.find? (fun g => g.parent == pid && g.name == n) with
  | some g =>
    have hred : find_or_create_folder s pid n = (g, s) := by
      unfold find_or_create_folder
      rw [hf]
    rw [hred]
    exact ⟨fun _ _ _ _ => rfl, by rw [hred], by rw [hred], Nat.le_succ _⟩
  | none =>
    have hnone := List.find?_eq_none.mp hf
    have hred : find_or_create_folder s pid n
        = (⟨s.nextId, pid, n⟩,
           ⟨s.folders ++ [⟨s.nextId, pid, n⟩], s.files, s.nextId + 1⟩) := by
      unfold find_or_create_folder
      rw [hf]
    have hfind2 : (s.folders ++ [(⟨s.nextId, pid, n⟩ : BFolder)]).find?
        (fun g => g.parent == pid && g.name == n) = some ⟨s.nextId, pid, n⟩ := by
      rw [List.find?_append, hf]
      simp [List.find?]
    rw [hred]
    refine ⟨?_, ?_, ?_, by simp⟩
    · intro g hg hp hn
      exact absurd (by simp [hp, hn]) (hnone g hg)
    · show (find_or_create_folder
          ⟨s.folders ++ [⟨s.nextId, pid, n⟩], s.files, s.nextId + 1⟩ pid n).1
        = (⟨s.nextId, pid, n⟩ : BFolder)
      unfold find_or_create_folder
      rw [hfind2]
    · show (find_or_create_folder
          ⟨s.folders ++ [⟨s.nextId, pid, n⟩], s.files, s.nextId + 1⟩ pid n).2
        = (⟨s.folders ++ [⟨s.nextId, pid, n⟩], s.files, s.nextId + 1⟩ : BoxState)
      unfold find_or_create_folder
      rw [hfind2]

/-- Witness for C6: a state that already has a matching folder under
the parent. -/
theorem C6_witness :
    (find_or_create_folder ⟨[⟨5, 7, "raw_data"⟩], [], 8⟩ 7 "raw_data").2
      = (⟨[⟨5, 7, "raw_data"⟩], [], 8⟩ : BoxState) ∧
    (find_or_create_folder
        (find_or_create_folder ⟨[⟨5, 7, "raw_data"⟩], [], 8⟩ 7 "raw_data").2 7 "raw_data").1
      = (find_or_create_folder ⟨[⟨5, 7, "raw_data"⟩], [], 8⟩ 7 "raw_data").1 := by
  have h := C6_find_or_create_folder_idempotent ⟨[⟨5, 7, "raw_data"⟩], [], 8⟩ 7 "raw_data"
  exact ⟨h.1 ⟨5, 7, "raw_data"⟩ (by simp) rfl rfl, h.2.1⟩

theorem pad5_length (k : Nat) : (pad5 k).length = max 5 (toString k).length := by
  unfold pad5
  by_cases hl : (toString k).length < 5
  · rw [if_pos hl]
    simp only [String.length_append, String.length_mk, List.length_replicate]
    omega
  · rw [if_neg hl]
    omega

/-- Claim C2: for every file copied by `process_sd_card_files`, the
destination filename is the organization, site code, "plot" plus the
plot number, the device code, the deployment end date rendered as
YYYYMM, and a zero-padded five-digit sequence number, joined by
underscores, followed by the lowercased original file extension; the
sequence starts at 1 for each invocation and increases by exactly 1 per
copied file (`pad5` pads the decimal digits to width five with zeros on
the left). -/
theorem C2_destination_filenames (p : Params) (files : List SrcFile)
    (h : ∀ f ∈ files, f.copyError = none) :
    (process_sd_card_files p files initPState).1.inventory.map FileInfo.new_filename
      = expectedNames p 1 (files.filter keptFile) ∧
    ∀ k, (pad5 k).length = max 5 (toString k).length := by
  refine ⟨?_, pad5_length⟩
  have hn := processGo_names p files 0 1 initPState h
  simpa [process_sd_card_files, initPState] using hn

/-- Witness for C2: one keepable image, one hidden file, one audio
file. -/
theorem C2_witness :
    (process_sd_card_files ⟨"UC", "Bodega", 2, "North", "ML", "p2_ML", "2025-03-14", false⟩
        [⟨"/sd/DCIM", "IMG_0001.JPG", 100, "t1", "h1", none, none, none, none⟩,
         ⟨"/sd/DCIM", ".Trashes", 5, "t2", "h2", none, none, none, none⟩,
         ⟨"/sd/REC", "song.WAV", 7, "t3", "h3", none, none, none, none⟩]
        initPState).1.inventory.map FileInfo.new_filename
      = expectedNames ⟨"UC", "Bodega", 2, "North", "ML", "p2_ML", "2025-03-14", false⟩ 1
          (([⟨"/sd/DCIM", "IMG_0001.JPG", 100, "t1", "h1", none, none, none, none⟩,
             ⟨"/sd/DCIM", ".Trashes", 5, "t2", "h2", none, none, none, none⟩,
             ⟨"/sd/REC", "song.WAV", 7, "t3", "h3", none, none, none, none⟩] : List SrcFile).filter keptFile) ∧
    ∀ k, (pad5 k).length = max 5 (toString k).length :=
  C2_destination_filenames ⟨"UC", "Bodega", 2, "North", "ML", "p2_ML", "2025-03-14", false⟩
    [⟨"/sd/DCIM", "IMG_0001.JPG", 100, "t1", "h1", none, none, none, none⟩,
     ⟨"/sd/DCIM", ".Trashes", 5, "t2", "h2", none, none, none, none⟩,
     ⟨"/sd/REC", "song.WAV", 7, "t3", "h3", none, none, none, none⟩]
    (by intro f hf; simp at hf; rcases hf with h | h | h <;> simp [h])

/-- The expected filenames of the witness, evaluated concretely: the
sequence is 00001, 00002 over the two kept files, the extensions are
lowercased, and the skipped dot-file consumes no sequence number. -/
example :
    (process_sd_card_files ⟨"UC", "Bodega", 2, "North", "ML", "p2_ML", "2025-03-14", false⟩
        [⟨"/sd/DCIM", "IMG_0001.JPG", 100, "t1", "h1", none, none, none, none⟩,
         ⟨"/sd/DCIM", ".Trashes", 5, "t2", "h2", none, none, none, none⟩,
         ⟨"/sd/REC", "song.WAV", 7, "t3", "h3", none, none, none, none⟩]
        initPState).1.inventory.map FileInfo.new_filename
      = ["UC_Bodega_plot2_ML_202503_00001.jpg", "UC_Bodega_plot2_ML_202503_00002.wav"] := by
  decide

/-- Claim C3: for every file processed by `process_sd_card_files`, the
copy of the file completes before the corresponding record is appended
to `file_inventory`, and every record in `file_inventory` describes a
file that was copied: in the event trace of a run every record event is
preceded by a copy event of the same destination name, the record
events name exactly the inventory rows, and the copy events name
exactly the copied destination files. -/
theorem C3_copy_then_record (p : Params) (files : List SrcFile) :
    recordsHaveCopies (process_sd_card_files p files initPState).1.trace [] = true ∧
    recordNames (process_sd_card_files p files initPState).1.trace
      = (process_sd_card_files p files initPState).1.inventory.map FileInfo.new_filename ∧
    copyNames (process_sd_card_files p files initPState).1.trace
      = (process_sd_card_files p files initPState).1.destFiles := by
  refine ⟨?_, (processGo_recordNames p files 0 1).1, (processGo_recordNames p files 0 1).2⟩
  exact processGo_trace_ok p files 0 1 initPState [] rfl

/-- Claim C4: when `process_sd_card_files` raises, `copy_sd_card_data`
catches the exception, writes it to the log and shows a message box; no
already-copied destination file or already-appended inventory record is
removed (the state still extends the starting state) and no retry
happens (the result is exactly the state the single aborted call
reached).  Likewise, when an upload inside `BoxUploadThread.run`
raises, `run` emits `finished(False, message)` and the already-uploaded
files and created remote folders are left in place, and
`on_upload_finished` shows a warning box. -/
theorem C4_no_rollback_no_retry :
    (∀ prev (p : Params) files (st st' : PState) e,
        process_sd_card_files p files st = (st', Except.error e) →
        (copy_sd_card_data prev p files st).messageBox
            = some ("Error copying files: " ++ e) ∧
        (copy_sd_card_data prev p files st).log = ["✗ Error: " ++ e ++ "\n"] ∧
        (copy_sd_card_data prev p files st).file_inventory = st'.inventory ∧
        (copy_sd_card_data prev p files st).destFiles = st'.destFiles ∧
        (∃ zs, st'.inventory = st.inventory ++ zs) ∧
        (∃ zs, st'.destFiles = st.destFiles ++ zs) ∧
        (copy_sd_card_data prev p files st).status = prev) ∧
    (∀ (s0 : BoxState) tid dn (pre : List UpFile) f post e,
        f.uploadError = some e → (∀ g ∈ pre, g.uploadError = none) →
        (run s0 tid dn (pre ++ f :: post)).finished = (false, "Upload error: " ++ e) ∧
        (∃ zs, (run s0 tid dn (pre ++ f :: post)).state.files = s0.files ++ zs) ∧
        (∃ zs, (run s0 tid dn (pre ++ f :: post)).state.folders = s0.folders ++ zs) ∧
        (run s0 tid dn (pre ++ f :: post)).state.files.length
            = s0.files.length + pre.length ∧
        on_upload_finished false ("Upload error: " ++ e)
            = ("warning", "Upload error: " ++ e)) := by
  constructor
  · intro prev p files st st' e hp
    have hcd : copy_sd_card_data prev p files st
        = ⟨st'.inventory, st'.destFiles, prev, ["✗ Error: " ++ e ++ "\n"],
           some ("Error copying files: " ++ e)⟩ := by
      unfold copy_sd_card_data
      rw [hp]
    obtain ⟨hd, hi, _, _⟩ := processGo_frame p files 0 1 st
    have hst' : st' = (process_sd_card_files p files st).1 := by rw [hp]
    refine ⟨by rw [hcd], by rw [hcd], by rw [hcd], by rw [hcd], ?_, ?_, by rw [hcd]⟩
    · exact ⟨(processGo p files 0 1 initPState).1.inventory, by rw [hst']; exact hi⟩
    · exact ⟨(processGo p files 0 1 initPState).1.destFiles, by rw [hst']; exact hd⟩
  · intro s0 tid dn pre f post e hf hall
    obtain ⟨_, _, _, ⟨zs0, hfold0⟩, hfiles0⟩ := find_or_create_parent_name s0 tid dn
    have hrun : run s0 tid dn (pre ++ f :: post)
        = uploadLoop (find_or_create_folder s0 tid dn).2
            (find_or_create_folder s0 tid dn).1.id (pre ++ f :: post).length 0 []
            (pre ++ f :: post) := rfl
    obtain ⟨hfin, hlen, ⟨zs1, hfiles1⟩, zs2, hfold2⟩ :=
      uploadLoop_fail pre (find_or_create_folder s0 tid dn).2
        (find_or_create_folder s0 tid dn).1.id (pre ++ f :: post).length 0 [] f post e hf hall
    rw [hrun]
    exact ⟨hfin, ⟨zs1, by rw [hfiles1, hfiles0]⟩,
      ⟨zs0 ++ zs2, by rw [hfold2, hfold0, List.append_assoc]⟩,
      by rw [hlen, hfiles0], rfl⟩

/-- Witness for C4: a copy that raises "disk full" on the first file,
and an upload run whose only file raises "network down". -/
theorem C4_witness :
    (copy_sd_card_data "Pending" ⟨"UC", "Bodega", 1, "North", "ML", "p1_ML", "2025-03-14", false⟩
        [⟨"/sd", "a.jpg", 1, "t", "h", none, none, none, some "disk full"⟩]
        initPState).messageBox = some ("Error copying files: " ++ "disk full") ∧
    (run ⟨[], [], 0⟩ 3 "UC_Bodega_20250314"
        ([] ++ (⟨["x.jpg"], some "network down"⟩ : UpFile) :: [])).finished
      = (false, "Upload error: " ++ "network down") :=
  ⟨(C4_no_rollback_no_retry.1 "Pending"
      ⟨"UC", "Bodega", 1, "North", "ML", "p1_ML", "2025-03-14", false⟩
      [⟨"/sd", "a.jpg", 1, "t", "h", none, none, none, some "disk full"⟩]
      initPState initPState "disk full" rfl).1,
   (C4_no_rollback_no_retry.2 ⟨[], [], 0⟩ 3 "UC_Bodega_20250314" []
      ⟨["x.jpg"], some "network down"⟩ [] "network down" rfl (by simp)).1⟩

/-- Claim C8: after `generate_metadata_files` runs, the number of data
rows of `file_metadata.csv` equals the length of `file_inventory`,
which equals the `file_count` field of `manifest.json`, and the
manifest's devices list has exactly one entry per selected device: the
two sidecar files are mutually consistent. -/
theorem C8_metadata_files_consistent (metadata : List (String × String))
    (devices : List (Nat × String × String × String))
    (inventory : List FileInfo) (now : String) :
    (generate_metadata_files metadata devices inventory now).1.rows.length
        = inventory.length ∧
    (generate_metadata_files metadata devices inventory now).2.file_count
        = inventory.length ∧
    (generate_metadata_files metadata devices inventory now).2.devices.length
        = devices.length ∧
    (generate_metadata_files metadata devices inventory now).2.devices
        = devices.map (fun d => ⟨d.1, d.2.1, d.2.2.1, d.2.2.2⟩) := by
  refine ⟨?_, rfl, ?_, rfl⟩ <;> simp [generate_metadata_files]

/-- Claim C9: every file whose name starts with a dot or an underscore,
or which classifies as "other", is skipped entirely by
`process_sd_card_files`: dropping those files from the input changes
nothing about the result (no copy, no sequence number, no inventory
record, no contribution to the returned count). -/
theorem C9_skipped_files_have_no_effect (p : Params) (files : List SrcFile) (st : PState) :
    process_sd_card_files p files st = process_sd_card_files p (files.filter keptFile) st ∧
    ∀ f : SrcFile, keptFile f = false ↔
      (pyStartsWith f.name "." = true ∨ pyStartsWith f.name "_" = true
        ∨ classify_file f.name = "other") := by
  refine ⟨processGo_filter p files 0 1 st, ?_⟩
  intro f
  constructor
  · intro h
    by_cases h1 : pyStartsWith f.name "." = true
    · exact Or.inl h1
    · by_cases h2 : pyStartsWith f.name "_" = true
      · exact Or.inr (Or.inl h2)
      · refine Or.inr (Or.inr ?_)
        simp only [keptFile, h1, h2, Bool.or_false, Bool.not_false, Bool.true_and] at h
        simpa using h
  · intro h
    rcases h with h | h | h
    · simp [keptFile, h]
    · simp [keptFile, h]
    · simp [keptFile, h]

/-- Claim C10: `file_inventory` is append-only under
`process_sd_card_files` (the result extends the starting inventory and
the returned count is exactly the number of appended records), running
the same copy twice appends a second identical full set of records
rather than replacing the first, and `start_new_deployment` resets the
inventory to empty. -/
theorem C10_inventory_append_only :
    (∀ (p : Params) files (st : PState),
        ∃ zs, (process_sd_card_files p files st).1.inventory = st.inventory ++ zs) ∧
    (∀ (p : Params) files (st : PState) n,
        (process_sd_card_files p files st).2 = Except.ok n →
        (process_sd_card_files p files st).1.inventory.length
          = st.inventory.length + n) ∧
    (∀ (p : Params) files,
        (process_sd_card_files p files
            (process_sd_card_files p files initPState).1).1.inventory
          = (process_sd_card_files p files initPState).1.inventory
            ++ (process_sd_card_files p files initPState).1.inventory) ∧
    (∀ w : WizardState, (start_new_deployment w true).file_inventory = []) := by
  refine ⟨?_, ?_, ?_, fun w => rfl⟩
  · intro p files st
    exact ⟨(processGo p files 0 1 initPState).1.inventory,
      (processGo_frame p files 0 1 st).2.1⟩
  · intro p files st n h
    obtain ⟨_, hi, _, hr⟩ := processGo_frame p files 0 1 st
    simp only [process_sd_card_files] at h ⊢
    rw [hr] at h
    have hc := processGo_count p files 0 1 n h
    rw [hi]
    simp only [List.length_append]
    omega
  · intro p files
    obtain ⟨_, h1, _, _⟩ := processGo_frame p files 0 1 initPState
    obtain ⟨_, h2, _, _⟩ := processGo_frame p files 0 1
      (process_sd_card_files p files initPState).1
    rw [show ((process_sd_card_files p files initPState).1.inventory : List FileInfo)
        = (processGo p files 0 1 initPState).1.inventory from by
          rw [show (process_sd_card_files p files initPState).1.inventory
              = initPState.inventory ++ (processGo p files 0 1 initPState).1.inventory from h1]
          simp [initPState]] at h2 ⊢
    exact h2

/-- Witness for C10: one copied file yields a count of 1 and one
appended record. -/
theorem C10_witness :
    (process_sd_card_files ⟨"UC", "Quail", 3, "South", "BD", "p3_BD", "2024-11-02", true⟩
        [⟨"/sd", "call.wav", 9, "t", "h", none, none, none, none⟩]
        initPState).1.inventory.length = initPState.inventory.length + 1 :=
  C10_inventory_append_only.2.1 ⟨"UC", "Quail", 3, "South", "BD", "p3_BD", "2024-11-02", true⟩
    [⟨"/sd", "call.wav", 9, "t", "h", none, none, none, none⟩] initPState 1 rfl

/-- Claim C7: `compute_file_hash` returns the digest of the file's
entire byte contents: the incremental computation over successive
4096-byte blocks equals the hash of the concatenation of all the file's
bytes, for any file size including zero. -/
theorem C7_compute_file_hash_refines (sha256hex : List Nat → String) (content : List Nat) :
    compute_file_hash sha256hex content = sha256hex content := by
  unfold compute_file_hash
  rw [foldl_append_eq_flatten, List.nil_append, readBlocks_flatten]

end CASSN
